import Mathlib

/-!
Verification of the particle-aggregation simulation core (src/Main.cpp).

The C++ code keeps a global `std::vector<Particle>` and advances it once per
tick with `updateParticles`.  We embed the state as `List Particle` over ℝ
(the float arithmetic is modelled by exact real arithmetic, `sqrt` by
`Real.sqrt`).  The calls to `rand()` are modelled by explicit inputs: one raw
draw triple per particle position for `updateParticles` (the C++ value
`rand() % 100 - 50`), and a raw natural-number stream for
`initializeSimulation` (the C++ `rand()` values themselves).
-/

noncomputable section

-- Simulation parameters (src/Main.cpp lines 10-14, 81, 119)

def PARTICLE_RADIUS : ℝ := 0.02

def NUM_PARTICLES : ℕ := 200

def ATTRACTION_RANGE : ℝ := 0.15

def GROWTH_RATE : ℝ := 0.005

def BROWNIAN_MOTION : ℝ := 0.001

def ATTRACTION_FORCE : ℝ := 0.0005

def BOUNDARY : ℝ := 1

/-- The C++ `struct Particle` (src/Main.cpp lines 17-28). -/
@[ext]
structure Particle where
  x : ℝ
  y : ℝ
  z : ℝ
  radius : ℝ
  isAttached : Bool
  dx : ℝ
  dy : ℝ
  dz : ℝ

/-- The C++ `float distance(const Particle&, const Particle&)` (lines 59-64). -/
def distance (a b : Particle) : ℝ :=
  Real.sqrt ((a.x - b.x) * (a.x - b.x) + (a.y - b.y) * (a.y - b.y) +
    (a.z - b.z) * (a.z - b.z))

/-- One raw random triple, the values `rand() % 100 - 50` of lines 71-73. -/
abbrev Draw : Type := ℝ × ℝ × ℝ

/-- Brownian kick (lines 71-73): `p.dx += (rand()%100-50) * BROWNIAN_MOTION`. -/
def brownianize (r : Draw) (p : Particle) : Particle :=
  { p with dx := p.dx + r.1 * BROWNIAN_MOTION,
           dy := p.dy + r.2.1 * BROWNIAN_MOTION,
           dz := p.dz + r.2.2 * BROWNIAN_MOTION }

/-- Position update (lines 76-78): `p.x += p.dx;` etc. -/
def integrate (p : Particle) : Particle :=
  { p with x := p.x + p.dx, y := p.y + p.dy, z := p.z + p.dz }

/-- Boundary checks on the x axis (lines 82-83): two sequential `if`s. -/
def bounceX (p : Particle) : Particle :=
  let p1 := if p.x < -BOUNDARY then { p with x := -BOUNDARY, dx := p.dx * (-0.5) } else p
  if p1.x > BOUNDARY then { p1 with x := BOUNDARY, dx := p1.dx * (-0.5) } else p1

/-- Boundary checks on the y axis (lines 84-85). -/
def bounceY (p : Particle) : Particle :=
  let p1 := if p.y < -BOUNDARY then { p with y := -BOUNDARY, dy := p.dy * (-0.5) } else p
  if p1.y > BOUNDARY then { p1 with y := BOUNDARY, dy := p1.dy * (-0.5) } else p1

/-- Boundary checks on the z axis (lines 86-87). -/
def bounceZ (p : Particle) : Particle :=
  let p1 := if p.z < -BOUNDARY then { p with z := -BOUNDARY, dz := p.dz * (-0.5) } else p
  if p1.z > BOUNDARY then { p1 with z := BOUNDARY, dz := p1.dz * (-0.5) } else p1

/-- Boundary checks, soft bounce (lines 80-87): the six `if`s in source order. -/
def bounce (p : Particle) : Particle :=
  bounceZ (bounceY (bounceX p))

/-- The motion part of one free-particle update: lines 71-87 in order. -/
def move (r : Draw) (p : Particle) : Particle :=
  bounce (integrate (brownianize r p))

/-- Nearest-attached scan (lines 89-101).  The C++ code tracks
`minDist` (starting at `INFINITY`) and a pointer `nearestAttached`
(starting at `nullptr`); the pointer is `none` exactly while `minDist`
is still `INFINITY`, so the accumulator is just the optional current best. -/
def nearStep (p : Particle) (acc : Option Particle) (o : Particle) : Option Particle :=
  if o.isAttached then
    match acc with
    | none => some o
    | some b => if distance p o < distance p b then some o else acc
  else acc

def findNearest (p : Particle) (l : List Particle) : Option Particle :=
  l.foldl (nearStep p) none

/-- Attraction force application (lines 105-122): direction to the nearest
attached particle, normalized only when its length is positive, scaled by
`ATTRACTION_FORCE` and added to the velocity. -/
def applyForce (q p : Particle) : Particle :=
  let dirX := q.x - p.x
  let dirY := q.y - p.y
  let dirZ := q.z - p.z
  let length := Real.sqrt (dirX * dirX + dirY * dirY + dirZ * dirZ)
  let u : ℝ × ℝ × ℝ :=
    if length > 0 then (dirX / length, dirY / length, dirZ / length)
    else (dirX, dirY, dirZ)
  { p with dx := p.dx + u.1 * ATTRACTION_FORCE,
           dy := p.dy + u.2.1 * ATTRACTION_FORCE,
           dz := p.dz + u.2.2 * ATTRACTION_FORCE }

/-- Attraction and attachment step (lines 104-130): if a nearest attached
particle exists and is within `ATTRACTION_RANGE`, apply the force and then
test for attachment against `0.9` times the combined radii (`minDist` and the
radii are read from the state before the force is applied, as in the source,
where the force only changes the velocity). -/
def attract (near : Option Particle) (p : Particle) : Particle :=
  match near with
  | none => p
  | some q =>
    if distance p q < ATTRACTION_RANGE then
      let p1 := applyForce q p
      if distance p q < (q.radius + p.radius) * 0.9 then
        { p1 with isAttached := true, radius := p.radius + GROWTH_RATE,
                  dx := 0, dy := 0, dz := 0 }
      else p1
    else p

/-- The `for (auto& p : particles)` loop of `updateParticles` (lines 67-131).
`done` is the already-iterated prefix (with its updates applied), the head of
`todo` is the particle the loop is at, and the nearest-attached scan runs over
the whole current vector `done ++ p1 :: rest` exactly as the inner loop of
lines 93-101 does.  Draws are consumed positionally, one per list slot. -/
def updateLoop : List Particle → List Particle → List Draw → List Particle
  | done, [], _ => done
  | done, p :: rest, rs =>
    if p.isAttached then
      updateLoop (done ++ [p]) rest rs.tail
    else
      let p1 := move (rs.headD (0, 0, 0)) p
      let p2 := attract (findNearest p1 (done ++ p1 :: rest)) p1
      updateLoop (done ++ [p2]) rest rs.tail

/-- The C++ `void updateParticles()` (lines 66-132), one tick. -/
def updateParticles (ps : List Particle) (rs : List Draw) : List Particle :=
  updateLoop [] ps rs

/-- Several ticks: one draw list per tick. -/
def advanceMany (rss : List (List Draw)) (ps : List Particle) : List Particle :=
  rss.foldl (fun s rs => updateParticles s rs) ps

-- Initialization (lines 32-57)

/-- The central seed particle (lines 37-38): constructed attached at the
origin, then its radius is overwritten with `PARTICLE_RADIUS * 2`. -/
def seedParticle : Particle :=
  { x := 0, y := 0, z := 0, radius := PARTICLE_RADIUS * 2, isAttached := true,
    dx := 0, dy := 0, dz := 0 }

/-- One free particle of the initialization loop (lines 41-56); `r` is the
stream of raw `rand()` values, six consumed per particle in source order
(x, y, z, dx, dy, dz). -/
def initFree (r : ℕ → ℕ) (i : ℕ) : Particle :=
  { x := ((r (6 * i) % 200 : ℕ) - 100 : ℝ) / 100,
    y := ((r (6 * i + 1) % 200 : ℕ) - 100 : ℝ) / 100,
    z := ((r (6 * i + 2) % 200 : ℕ) - 100 : ℝ) / 100,
    radius := PARTICLE_RADIUS, isAttached := false,
    dx := ((r (6 * i + 3) % 100 : ℕ) - 50 : ℝ) / 50000,
    dy := ((r (6 * i + 4) % 100 : ℕ) - 50 : ℝ) / 50000,
    dz := ((r (6 * i + 5) % 100 : ℕ) - 50 : ℝ) / 50000 }

/-- The C++ `void initializeSimulation()` (lines 32-57) with the loop bound `n`
(`NUM_PARTICLES` in the source) as a parameter and the `rand()` stream `r`
made explicit. -/
def initializeSimulation (n : ℕ) (r : ℕ → ℕ) : List Particle :=
  seedParticle :: (List.range n).map (initFree r)

-- ## Particle-level facts about the update components

lemma bounceX_cases (p : Particle) :
    ∃ a b, bounceX p = { p with x := a, dx := b } ∧ -BOUNDARY ≤ a ∧ a ≤ BOUNDARY := by
  simp only [bounceX]
  by_cases h1 : p.x < -BOUNDARY
  · rw [if_pos h1, if_neg (by norm_num [BOUNDARY])]
    exact ⟨-BOUNDARY, p.dx * (-0.5), rfl, le_refl _, by norm_num [BOUNDARY]⟩
  · rw [if_neg h1]
    by_cases h2 : p.x > BOUNDARY
    · rw [if_pos h2]
      exact ⟨BOUNDARY, p.dx * (-0.5), rfl, by norm_num [BOUNDARY], le_refl _⟩
    · rw [if_neg h2]
      exact ⟨p.x, p.dx, rfl, not_lt.mp h1, not_lt.mp h2⟩

lemma bounceY_cases (p : Particle) :
    ∃ a b, bounceY p = { p with y := a, dy := b } ∧ -BOUNDARY ≤ a ∧ a ≤ BOUNDARY := by
  simp only [bounceY]
  by_cases h1 : p.y < -BOUNDARY
  · rw [if_pos h1, if_neg (by norm_num [BOUNDARY])]
    exact ⟨-BOUNDARY, p.dy * (-0.5), rfl, le_refl _, by norm_num [BOUNDARY]⟩
  · rw [if_neg h1]
    by_cases h2 : p.y > BOUNDARY
    · rw [if_pos h2]
      exact ⟨BOUNDARY, p.dy * (-0.5), rfl, by norm_num [BOUNDARY], le_refl _⟩
    · rw [if_neg h2]
      exact ⟨p.y, p.dy, rfl, not_lt.mp h1, not_lt.mp h2⟩

lemma bounceZ_cases (p : Particle) :
    ∃ a b, bounceZ p = { p with z := a, dz := b } ∧ -BOUNDARY ≤ a ∧ a ≤ BOUNDARY := by
  simp only [bounceZ]
  by_cases h1 : p.z < -BOUNDARY
  · rw [if_pos h1, if_neg (by norm_num [BOUNDARY])]
    exact ⟨-BOUNDARY, p.dz * (-0.5), rfl, le_refl _, by norm_num [BOUNDARY]⟩
  · rw [if_neg h1]
    by_cases h2 : p.z > BOUNDARY
    · rw [if_pos h2]
      exact ⟨BOUNDARY, p.dz * (-0.5), rfl, by norm_num [BOUNDARY], le_refl _⟩
    · rw [if_neg h2]
      exact ⟨p.z, p.dz, rfl, not_lt.mp h1, not_lt.mp h2⟩

lemma bounceX_radius (p : Particle) : (bounceX p).radius = p.radius := by
  obtain ⟨a, b, h, -, -⟩ := bounceX_cases p
  rw [h]

lemma bounceX_isAttached (p : Particle) : (bounceX p).isAttached = p.isAttached := by
  obtain ⟨a, b, h, -, -⟩ := bounceX_cases p
  rw [h]

lemma bounceX_y (p : Particle) : (bounceX p).y = p.y := by
  obtain ⟨a, b, h, -, -⟩ := bounceX_cases p
  rw [h]

lemma bounceX_z (p : Particle) : (bounceX p).z = p.z := by
  obtain ⟨a, b, h, -, -⟩ := bounceX_cases p
  rw [h]

lemma bounceX_x_bounds (p : Particle) :
    -BOUNDARY ≤ (bounceX p).x ∧ (bounceX p).x ≤ BOUNDARY := by
  obtain ⟨a, b, h, h1, h2⟩ := bounceX_cases p
  rw [h]
  exact ⟨h1, h2⟩

lemma bounceY_radius (p : Particle) : (bounceY p).radius = p.radius := by
  obtain ⟨a, b, h, -, -⟩ := bounceY_cases p
  rw [h]

lemma bounceY_isAttached (p : Particle) : (bounceY p).isAttached = p.isAttached := by
  obtain ⟨a, b, h, -, -⟩ := bounceY_cases p
  rw [h]

lemma bounceY_x (p : Particle) : (bounceY p).x = p.x := by
  obtain ⟨a, b, h, -, -⟩ := bounceY_cases p
  rw [h]

lemma bounceY_z (p : Particle) : (bounceY p).z = p.z := by
  obtain ⟨a, b, h, -, -⟩ := bounceY_cases p
  rw [h]

lemma bounceY_y_bounds (p : Particle) :
    -BOUNDARY ≤ (bounceY p).y ∧ (bounceY p).y ≤ BOUNDARY := by
  obtain ⟨a, b, h, h1, h2⟩ := bounceY_cases p
  rw [h]
  exact ⟨h1, h2⟩

lemma bounceZ_radius (p : Particle) : (bounceZ p).radius = p.radius := by
  obtain ⟨a, b, h, -, -⟩ := bounceZ_cases p
  rw [h]

lemma bounceZ_isAttached (p : Particle) : (bounceZ p).isAttached = p.isAttached := by
  obtain ⟨a, b, h, -, -⟩ := bounceZ_cases p
  rw [h]

lemma bounceZ_x (p : Particle) : (bounceZ p).x = p.x := by
  obtain ⟨a, b, h, -, -⟩ := bounceZ_cases p
  rw [h]

lemma bounceZ_y (p : Particle) : (bounceZ p).y = p.y := by
  obtain ⟨a, b, h, -, -⟩ := bounceZ_cases p
  rw [h]

lemma bounceZ_z_bounds (p : Particle) :
    -BOUNDARY ≤ (bounceZ p).z ∧ (bounceZ p).z ≤ BOUNDARY := by
  obtain ⟨a, b, h, h1, h2⟩ := bounceZ_cases p
  rw [h]
  exact ⟨h1, h2⟩

lemma move_radius (r : Draw) (p : Particle) : (move r p).radius = p.radius := by
  rw [move, bounce, bounceZ_radius, bounceY_radius, bounceX_radius]
  rfl

lemma move_isAttached (r : Draw) (p : Particle) : (move r p).isAttached = p.isAttached := by
  rw [move, bounce, bounceZ_isAttached, bounceY_isAttached, bounceX_isAttached]
  rfl

lemma move_bounds (r : Draw) (p : Particle) :
    -BOUNDARY ≤ (move r p).x ∧ (move r p).x ≤ BOUNDARY ∧
    -BOUNDARY ≤ (move r p).y ∧ (move r p).y ≤ BOUNDARY ∧
    -BOUNDARY ≤ (move r p).z ∧ (move r p).z ≤ BOUNDARY := by
  have hx : (move r p).x = (bounceX (integrate (brownianize r p))).x := by
    rw [move, bounce, bounceZ_x, bounceY_x]
  have hy : (move r p).y = (bounceY (bounceX (integrate (brownianize r p)))).y := by
    rw [move, bounce, bounceZ_y]
  have hz : (move r p).z = (bounceZ (bounceY (bounceX (integrate (brownianize r p))))).z := by
    rw [move, bounce]
  rw [hx, hy, hz]
  obtain ⟨h1, h2⟩ := bounceX_x_bounds (integrate (brownianize r p))
  obtain ⟨h3, h4⟩ := bounceY_y_bounds (bounceX (integrate (brownianize r p)))
  obtain ⟨h5, h6⟩ := bounceZ_z_bounds (bounceY (bounceX (integrate (brownianize r p))))
  exact ⟨h1, h2, h3, h4, h5, h6⟩

lemma applyForce_x (q p : Particle) : (applyForce q p).x = p.x := rfl

lemma applyForce_y (q p : Particle) : (applyForce q p).y = p.y := rfl

lemma applyForce_z (q p : Particle) : (applyForce q p).z = p.z := rfl

lemma applyForce_radius (q p : Particle) : (applyForce q p).radius = p.radius := rfl

lemma applyForce_isAttached (q p : Particle) : (applyForce q p).isAttached = p.isAttached := rfl

/-- Exhaustive description of the attraction-and-attachment step. -/
lemma attract_cases (near : Option Particle) (p : Particle) :
    attract near p = p ∨
    (∃ q, near = some q ∧ distance p q < ATTRACTION_RANGE ∧
      ¬ distance p q < (q.radius + p.radius) * 0.9 ∧ attract near p = applyForce q p) ∨
    (∃ q, near = some q ∧ distance p q < ATTRACTION_RANGE ∧
      distance p q < (q.radius + p.radius) * 0.9 ∧
      attract near p = { (applyForce q p) with
                         isAttached := true,
                         radius := p.radius + GROWTH_RATE,
                         dx := 0, dy := 0, dz := 0 }) := by
  cases near with
  | none => exact Or.inl rfl
  | some q =>
    by_cases h1 : distance p q < ATTRACTION_RANGE
    · by_cases h2 : distance p q < (q.radius + p.radius) * 0.9
      · exact Or.inr (Or.inr ⟨q, rfl, h1, h2, by simp only [attract, if_pos h1, if_pos h2]⟩)
      · exact Or.inr (Or.inl ⟨q, rfl, h1, h2, by simp only [attract, if_pos h1, if_neg h2]⟩)
    · exact Or.inl (by simp only [attract, if_neg h1])

-- ## Decomposition of the update loop

/-- How one pass of the loop relates an input particle to its output slot:
attached particles are returned untouched, free particles go through the
motion step and then the attraction step against some scan result. -/
def StepRel (p q : Particle) : Prop :=
  (p.isAttached = true ∧ q = p) ∨
  (p.isAttached = false ∧ ∃ r near, q = attract near (move r p))

lemma updateLoop_decomp (todo : List Particle) :
    ∀ (done : List Particle) (rs : List Draw),
      ∃ out, updateLoop done todo rs = done ++ out ∧ List.Forall₂ StepRel todo out := by
  induction todo with
  | nil =>
    intro done rs
    exact ⟨[], by simp [updateLoop], List.Forall₂.nil⟩
  | cons p rest ih =>
    intro done rs
    by_cases h : p.isAttached
    · obtain ⟨out, hout, hrel⟩ := ih (done ++ [p]) rs.tail
      refine ⟨p :: out, ?_, List.Forall₂.cons (Or.inl ⟨h, rfl⟩) hrel⟩
      rw [updateLoop, if_pos h, hout]
      simp
    · simp only [updateLoop, h, if_false]
      have hfree : p.isAttached = false := by simpa using h
      generalize hq : attract (findNearest (move (rs.headD (0, 0, 0)) p)
        (done ++ move (rs.headD (0, 0, 0)) p :: rest)) (move (rs.headD (0, 0, 0)) p) = q
      obtain ⟨out, hout, hrel⟩ := ih (done ++ [q]) rs.tail
      refine ⟨q :: out, ?_, List.Forall₂.cons
        (Or.inr ⟨hfree, rs.headD (0, 0, 0), _, hq.symm⟩) hrel⟩
      rw [hout]
      simp

lemma forall₂_get2 {R : Particle → Particle → Prop} :
    ∀ {l l' : List Particle}, List.Forall₂ R l l' →
      ∀ j p, l.get? j = some p → ∃ q, l'.get? j = some q ∧ R p q := by
  intro l l' h
  induction h with
  | nil =>
    intro j p hp
    simp at hp
  | cons hR hrest ih =>
    intro j p hp
    cases j with
    | zero =>
      simp only [List.get?] at hp ⊢
      exact ⟨_, rfl, (Option.some_inj.mp hp) ▸ hR⟩
    | succ n =>
      simp only [List.get?] at hp ⊢
      exact ih n p hp

lemma forall₂_mem_right {R : Particle → Particle → Prop} :
    ∀ {l l' : List Particle}, List.Forall₂ R l l' →
      ∀ q ∈ l', ∃ p ∈ l, R p q := by
  intro l l' h
  induction h with
  | nil =>
    intro q hq
    simp at hq
  | cons hR hrest ih =>
    intro q hq
    rcases List.mem_cons.mp hq with h1 | h1
    · exact ⟨_, List.mem_cons_self _ _, h1 ▸ hR⟩
    · obtain ⟨p, hp, hpq⟩ := ih q h1
      exact ⟨p, List.mem_cons_of_mem _ hp, hpq⟩

/-- One tick relates input and output particles slotwise by `StepRel`. -/
lemma updateParticles_decomp (ps : List Particle) (rs : List Draw) :
    List.Forall₂ StepRel ps (updateParticles ps rs) := by
  obtain ⟨out, hout, hrel⟩ := updateLoop_decomp ps [] rs
  rw [updateParticles, hout]
  simpa using hrel

lemma updateParticles_length (ps : List Particle) (rs : List Draw) :
    (updateParticles ps rs).length = ps.length :=
  ((updateParticles_decomp ps rs).length_eq).symm

/-- Helper: an attached particle passes through one tick completely unchanged. -/
lemma attached_get (ps : List Particle) (rs : List Draw) (j : ℕ) (p : Particle)
    (hj : ps.get? j = some p) (hp : p.isAttached = true) :
    (updateParticles ps rs).get? j = some p := by
  obtain ⟨q, hq, hR⟩ := forall₂_get2 (updateParticles_decomp ps rs) j p hj
  rcases hR with ⟨-, rfl⟩ | ⟨hfree, -⟩
  · exact hq
  · rw [hp] at hfree
    cases hfree

/-- Helper: an attached particle passes through any number of ticks unchanged. -/
lemma attached_get_many (rss : List (List Draw)) (ps : List Particle) (j : ℕ)
    (p : Particle) (hj : ps.get? j = some p) (hp : p.isAttached = true) :
    (advanceMany rss ps).get? j = some p := by
  induction rss generalizing ps with
  | nil => exact hj
  | cons rs rss ih =>
    have h1 := attached_get ps rs j p hj hp
    simpa only [advanceMany, List.foldl_cons] using ih (updateParticles ps rs) h1

-- ## Containment and counting helpers

/-- Every coordinate within the cube `[-BOUNDARY, BOUNDARY]`. -/
def inBounds (p : Particle) : Prop :=
  -BOUNDARY ≤ p.x ∧ p.x ≤ BOUNDARY ∧ -BOUNDARY ≤ p.y ∧ p.y ≤ BOUNDARY ∧
    -BOUNDARY ≤ p.z ∧ p.z ≤ BOUNDARY

lemma attract_x (near : Option Particle) (p : Particle) : (attract near p).x = p.x := by
  rcases attract_cases near p with hc | ⟨q0, -, -, -, hc⟩ | ⟨q0, -, -, -, hc⟩ <;> rw [hc]
  · exact applyForce_x q0 p
  · exact applyForce_x q0 p

lemma attract_y (near : Option Particle) (p : Particle) : (attract near p).y = p.y := by
  rcases attract_cases near p with hc | ⟨q0, -, -, -, hc⟩ | ⟨q0, -, -, -, hc⟩ <;> rw [hc]
  · exact applyForce_y q0 p
  · exact applyForce_y q0 p

lemma attract_z (near : Option Particle) (p : Particle) : (attract near p).z = p.z := by
  rcases attract_cases near p with hc | ⟨q0, -, -, -, hc⟩ | ⟨q0, -, -, -, hc⟩ <;> rw [hc]
  · exact applyForce_z q0 p
  · exact applyForce_z q0 p

/-- One tick keeps every particle inside the cube, provided the particles it
does not touch (the attached ones) already are. -/
lemma updateParticles_inBounds (ps : List Particle) (rs : List Draw)
    (h : ∀ p ∈ ps, inBounds p) : ∀ q ∈ updateParticles ps rs, inBounds q := by
  intro q hq
  obtain ⟨p, hp, hR⟩ := forall₂_mem_right (updateParticles_decomp ps rs) q hq
  rcases hR with ⟨-, hqp⟩ | ⟨-, r, near, rfl⟩
  · rw [hqp]
    exact h p hp
  · obtain ⟨h1, h2, h3, h4, h5, h6⟩ := move_bounds r p
    rw [inBounds, attract_x, attract_y, attract_z]
    exact ⟨h1, h2, h3, h4, h5, h6⟩

lemma advanceMany_inBounds (rss : List (List Draw)) (ps : List Particle)
    (h : ∀ p ∈ ps, inBounds p) : ∀ q ∈ advanceMany rss ps, inBounds q := by
  induction rss generalizing ps with
  | nil => exact h
  | cons rs rss ih =>
    intro q hq
    refine ih (updateParticles ps rs) (updateParticles_inBounds ps rs h) q ?_
    simpa only [advanceMany, List.foldl_cons] using hq

lemma initializeSimulation_inBounds (n : ℕ) (r : ℕ → ℕ) :
    ∀ p ∈ initializeSimulation n r, inBounds p := by
  intro p hp
  rcases List.mem_cons.mp hp with h | h
  · subst h
    refine ⟨?_, ?_, ?_, ?_, ?_, ?_⟩ <;> norm_num [seedParticle, BOUNDARY]
  · obtain ⟨i, -, rfl⟩ := List.mem_map.mp h
    have key : ∀ k : ℕ, -BOUNDARY ≤ ((k % 200 : ℕ) - 100 : ℝ) / 100 ∧
        ((k % 200 : ℕ) - 100 : ℝ) / 100 ≤ BOUNDARY := by
      intro k
      have h200 : (k % 200 : ℕ) < 200 := Nat.mod_lt _ (by norm_num)
      have hc : ((k % 200 : ℕ) : ℝ) < 200 := by exact_mod_cast h200
      have hc0 : (0 : ℝ) ≤ ((k % 200 : ℕ) : ℝ) := Nat.cast_nonneg _
      constructor
      · rw [BOUNDARY, le_div_iff₀ (by norm_num : (0:ℝ) < 100)]
        linarith
      · rw [BOUNDARY, div_le_one (by norm_num : (0:ℝ) < 100)]
        linarith
    obtain ⟨ha1, ha2⟩ := key (r (6 * i))
    obtain ⟨hb1, hb2⟩ := key (r (6 * i + 1))
    obtain ⟨hc1, hc2⟩ := key (r (6 * i + 2))
    exact ⟨ha1, ha2, hb1, hb2, hc1, hc2⟩

lemma advanceMany_length (rss : List (List Draw)) (ps : List Particle) :
    (advanceMany rss ps).length = ps.length := by
  induction rss generalizing ps with
  | nil => rfl
  | cons rs rss ih =>
    simpa only [advanceMany, List.foldl_cons] using
      (ih (updateParticles ps rs)).trans (updateParticles_length ps rs)

-- ## Claim theorems: invariants C1, C2, C3, C8

/-- C1: for every particle of the state whose attached flag is true (and whose
velocity is zero, as for every particle the simulation ever attaches), any
number of `updateParticles` ticks leaves the flag true, the velocity exactly
zero, and all three position coordinates unchanged. -/
theorem C1_attached_frozen (rss : List (List Draw)) (ps : List Particle) (j : ℕ)
    (p : Particle) (hj : ps.get? j = some p) (hp : p.isAttached = true)
    (hv : p.dx = 0 ∧ p.dy = 0 ∧ p.dz = 0) :
    ∃ q, (advanceMany rss ps).get? j = some q ∧ q.isAttached = true ∧
      q.dx = 0 ∧ q.dy = 0 ∧ q.dz = 0 ∧ q.x = p.x ∧ q.y = p.y ∧ q.z = p.z :=
  ⟨p, attached_get_many rss ps j p hj hp, hp, hv.1, hv.2.1, hv.2.2, rfl, rfl, rfl⟩

/-- C1 witness: the seed particle, attached with zero velocity, is frozen by a
concrete tick. -/
theorem C1_witness :
    ∃ q, (advanceMany [[((0:ℝ), (0:ℝ), (0:ℝ))]] [seedParticle]).get? 0 = some q ∧
      q.isAttached = true ∧ q.dx = 0 ∧ q.dy = 0 ∧ q.dz = 0 ∧
      q.x = seedParticle.x ∧ q.y = seedParticle.y ∧ q.z = seedParticle.z :=
  C1_attached_frozen _ _ 0 seedParticle rfl rfl ⟨rfl, rfl, rfl⟩

/-- C2: across one tick, each particle's radius never decreases; it strictly
increases exactly when the attached flag goes false to true in that tick, and
then the increase is exactly `GROWTH_RATE`. -/
theorem C2_radius_monotone (ps : List Particle) (rs : List Draw) (j : ℕ)
    (p q : Particle) (hj : ps.get? j = some p)
    (hq : (updateParticles ps rs).get? j = some q) :
    p.radius ≤ q.radius ∧
    (p.radius < q.radius ↔ (p.isAttached = false ∧ q.isAttached = true)) ∧
    ((p.isAttached = false ∧ q.isAttached = true) → q.radius = p.radius + GROWTH_RATE) := by
  obtain ⟨q', hq', hR⟩ := forall₂_get2 (updateParticles_decomp ps rs) j p hj
  rw [hq] at hq'
  obtain rfl : q = q' := Option.some_inj.mp hq'
  rcases hR with ⟨hp, rfl⟩ | ⟨hfree, r, near, rfl⟩
  · refine ⟨le_refl _, ?_, ?_⟩
    · simp [hp]
    · rintro ⟨h1, -⟩
      rw [hp] at h1
      cases h1
  · rcases attract_cases near (move r p) with hc | ⟨q0, -, -, -, hc⟩ | ⟨q0, -, -, -, hc⟩
    · have hrad : (attract near (move r p)).radius = p.radius := by
        rw [hc, move_radius]
      have hflag : (attract near (move r p)).isAttached = false := by
        rw [hc, move_isAttached, hfree]
      refine ⟨le_of_eq hrad.symm, ?_, ?_⟩
      · simp [hrad, hflag]
      · rintro ⟨-, h2⟩
        rw [hflag] at h2
        cases h2
    · have hrad : (attract near (move r p)).radius = p.radius := by
        rw [hc, applyForce_radius, move_radius]
      have hflag : (attract near (move r p)).isAttached = false := by
        rw [hc, applyForce_isAttached, move_isAttached, hfree]
      refine ⟨le_of_eq hrad.symm, ?_, ?_⟩
      · simp [hrad, hflag]
      · rintro ⟨-, h2⟩
        rw [hflag] at h2
        cases h2
    · have hrad : (attract near (move r p)).radius = p.radius + GROWTH_RATE := by
        rw [hc]
        show (move r p).radius + GROWTH_RATE = p.radius + GROWTH_RATE
        rw [move_radius]
      have hflag : (attract near (move r p)).isAttached = true := by
        rw [hc]
      have hpos : (0 : ℝ) < GROWTH_RATE := by norm_num [GROWTH_RATE]
      refine ⟨by linarith [hrad.ge], ?_, fun _ => hrad⟩
      constructor
      · intro _
        exact ⟨hfree, hflag⟩
      · intro _
        rw [hrad]
        linarith

/-- A concrete free particle far from everything, used as witness input. -/
def farFree : Particle :=
  { x := 0.5, y := 0, z := 0, radius := PARTICLE_RADIUS, isAttached := false,
    dx := 0, dy := 0, dz := 0 }

/-- C2 witness: a concrete free particle keeps a non-decreasing radius across
one tick. -/
theorem C2_witness :
    ∃ q, (updateParticles [farFree] [((0:ℝ), (0:ℝ), (0:ℝ))]).get? 0 = some q ∧
      farFree.radius ≤ q.radius := by
  have hq : ∃ q, (updateParticles [farFree] [((0:ℝ), (0:ℝ), (0:ℝ))]).get? 0 = some q := by
    have hlen : (updateParticles [farFree] [((0:ℝ), (0:ℝ), (0:ℝ))]).length = 1 :=
      updateParticles_length _ _
    cases hg : (updateParticles [farFree] [((0:ℝ), (0:ℝ), (0:ℝ))]).get? 0 with
    | none =>
      rw [List.get?_eq_none] at hg
      omega
    | some q => exact ⟨q, rfl⟩
  obtain ⟨q, hg⟩ := hq
  exact ⟨q, hg, (C2_radius_monotone [farFree] [((0:ℝ), (0:ℝ), (0:ℝ))] 0 farFree q rfl hg).1⟩

/-- C3: if every particle of a state has all three coordinates in
`[-BOUNDARY, BOUNDARY]`, the same holds after one tick; and it holds after any
number of ticks from any initialized state. -/
theorem C3_boundary_containment :
    (∀ (ps : List Particle) (rs : List Draw), (∀ p ∈ ps, inBounds p) →
      ∀ q ∈ updateParticles ps rs, inBounds q) ∧
    (∀ (n : ℕ) (r : ℕ → ℕ) (rss : List (List Draw)),
      ∀ q ∈ advanceMany rss (initializeSimulation n r), inBounds q) :=
  ⟨updateParticles_inBounds,
   fun n r rss => advanceMany_inBounds rss _ (initializeSimulation_inBounds n r)⟩

/-- C3 witness: the containment theorem applied to a concrete one-particle
state. -/
theorem C3_witness : inBounds seedParticle :=
  C3_boundary_containment.1 [seedParticle] []
    (fun p hp => by
      rw [List.mem_singleton.mp hp]
      refine ⟨?_, ?_, ?_, ?_, ?_, ?_⟩ <;> norm_num [seedParticle, BOUNDARY])
    seedParticle (by rw [show updateParticles [seedParticle] [] = [seedParticle] from rfl]; exact List.mem_singleton.mpr rfl)

/-- C8: initialization produces exactly one attached particle, that particle
has radius `2 * PARTICLE_RADIUS`, the state has `1 + n` particles, and every
number of ticks preserves the particle count. -/
theorem C8_seed_invariant (n : ℕ) (r : ℕ → ℕ) :
    (initializeSimulation n r).countP (·.isAttached) = 1 ∧
    (∀ p ∈ initializeSimulation n r, p.isAttached = true →
      p.radius = 2 * PARTICLE_RADIUS) ∧
    (initializeSimulation n r).length = 1 + n ∧
    (∀ rss, (advanceMany rss (initializeSimulation n r)).length = 1 + n) := by
  refine ⟨?_, ?_, ?_, ?_⟩
  · rw [initializeSimulation, List.countP_cons_of_pos _ _ (by rfl)]
    have hz : (List.countP (·.isAttached) ((List.range n).map (initFree r))) = 0 := by
      rw [List.countP_eq_zero]
      intro a ha
      obtain ⟨i, -, rfl⟩ := List.mem_map.mp ha
      simp [initFree]
    rw [hz]
  · intro p hp hflag
    rcases List.mem_cons.mp hp with h | h
    · subst h
      show PARTICLE_RADIUS * 2 = 2 * PARTICLE_RADIUS
      ring
    · obtain ⟨i, -, rfl⟩ := List.mem_map.mp h
      cases hflag
  · simp [initializeSimulation]
    omega
  · intro rss
    rw [advanceMany_length]
    simp [initializeSimulation]
    omega

/-- C8 witness: the seed invariant at a concrete initialization. -/
theorem C8_witness :
    (initializeSimulation 2 (fun _ => 0)).countP (·.isAttached) = 1 ∧
    (initializeSimulation 2 (fun _ => 0)).length = 1 + 2 :=
  ⟨(C8_seed_invariant 2 (fun _ => 0)).1, (C8_seed_invariant 2 (fun _ => 0)).2.2.1⟩

-- ## Correctness of the nearest-attached scan

lemma nearStep_foldl_min (p : Particle) :
    ∀ (l : List Particle) (acc : Option Particle) (q : Particle),
      l.foldl (nearStep p) acc = some q →
      (∀ o ∈ l, o.isAttached = true → distance p q ≤ distance p o) ∧
      (∀ b, acc = some b → distance p q ≤ distance p b) ∧
      ((q ∈ l ∧ q.isAttached = true) ∨ acc = some q) := by
  intro l
  induction l with
  | nil =>
    intro acc q h
    simp only [List.foldl_nil] at h
    refine ⟨by simp, ?_, Or.inr h⟩
    intro b hb
    rw [h] at hb
    rw [Option.some_inj.mp hb]
  | cons o l ih =>
    intro acc q h
    simp only [List.foldl_cons] at h
    by_cases ho : o.isAttached
    · cases acc with
      | none =>
        have hstep : nearStep p none o = some o := by
          simp [nearStep, ho]
        rw [hstep] at h
        obtain ⟨ihmin, ihacc, ihmem⟩ := ih (some o) q h
        refine ⟨?_, by simp, ?_⟩
        · intro o' ho' hatt
          rcases List.mem_cons.mp ho' with h1 | h1
          · exact h1 ▸ ihacc o rfl
          · exact ihmin o' h1 hatt
        · rcases ihmem with ⟨h1, h2⟩ | h1
          · exact Or.inl ⟨List.mem_cons_of_mem _ h1, h2⟩
          · obtain rfl : o = q := Option.some_inj.mp h1
            exact Or.inl ⟨List.mem_cons_self _ _, ho⟩
      | some b =>
        by_cases hd : distance p o < distance p b
        · have hstep : nearStep p (some b) o = some o := by
            simp [nearStep, ho, hd]
          rw [hstep] at h
          obtain ⟨ihmin, ihacc, ihmem⟩ := ih (some o) q h
          have hqo : distance p q ≤ distance p o := ihacc o rfl
          refine ⟨?_, ?_, ?_⟩
          · intro o' ho' hatt
            rcases List.mem_cons.mp ho' with h1 | h1
            · exact h1 ▸ hqo
            · exact ihmin o' h1 hatt
          · intro b' hb'
            obtain rfl : b = b' := Option.some_inj.mp hb'
            exact le_trans hqo (le_of_lt hd)
          · rcases ihmem with ⟨h1, h2⟩ | h1
            · exact Or.inl ⟨List.mem_cons_of_mem _ h1, h2⟩
            · obtain rfl : o = q := Option.some_inj.mp h1
              exact Or.inl ⟨List.mem_cons_self _ _, ho⟩
        · have hstep : nearStep p (some b) o = some b := by
            simp [nearStep, ho, hd]
          rw [hstep] at h
          obtain ⟨ihmin, ihacc, ihmem⟩ := ih (some b) q h
          have hqb : distance p q ≤ distance p b := ihacc b rfl
          refine ⟨?_, ?_, ?_⟩
          · intro o' ho' hatt
            rcases List.mem_cons.mp ho' with h1 | h1
            · rw [h1]
              exact le_trans hqb (not_lt.mp hd)
            · exact ihmin o' h1 hatt
          · intro b' hb'
            rw [← Option.some_inj.mp hb']
            exact hqb
          · rcases ihmem with ⟨h1, h2⟩ | h1
            · exact Or.inl ⟨List.mem_cons_of_mem _ h1, h2⟩
            · exact Or.inr h1
    · have hstep : nearStep p acc o = acc := by
        simp [nearStep, ho]
      rw [hstep] at h
      obtain ⟨ihmin, ihacc, ihmem⟩ := ih acc q h
      refine ⟨?_, ihacc, ?_⟩
      · intro o' ho' hatt
        rcases List.mem_cons.mp ho' with h1 | h1
        · rw [h1] at hatt
          rw [hatt] at ho
          exact absurd rfl ho
        · exact ihmin o' h1 hatt
      · rcases ihmem with ⟨h1, h2⟩ | h1
        · exact Or.inl ⟨List.mem_cons_of_mem _ h1, h2⟩
        · exact Or.inr h1

lemma nearStep_foldl_some (p : Particle) :
    ∀ (l : List Particle) (b : Particle),
      ∃ q, l.foldl (nearStep p) (some b) = some q := by
  intro l
  induction l with
  | nil => exact fun b => ⟨b, rfl⟩
  | cons o l ih =>
    intro b
    simp only [List.foldl_cons]
    by_cases ho : o.isAttached
    · by_cases hd : distance p o < distance p b
      · have hstep : nearStep p (some b) o = some o := by simp [nearStep, ho, hd]
        rw [hstep]
        exact ih o
      · have hstep : nearStep p (some b) o = some b := by simp [nearStep, ho, hd]
        rw [hstep]
        exact ih b
    · have hstep : nearStep p (some b) o = some b := by simp [nearStep, ho]
      rw [hstep]
      exact ih b

/-- If the scan comes back empty, no particle of the list is attached. -/
lemma findNearest_eq_none_iff (p : Particle) (l : List Particle) :
    findNearest p l = none ↔ ∀ o ∈ l, o.isAttached = false := by
  constructor
  · intro h o ho
    cases hatt : o.isAttached
    · rfl
    · exfalso
      obtain ⟨l1, l2, rfl⟩ := List.append_of_mem ho
      rw [findNearest, List.foldl_append, List.foldl_cons] at h
      have hsome : ∃ b, nearStep p (List.foldl (nearStep p) none l1) o = some b := by
        cases hacc : List.foldl (nearStep p) none l1 with
        | none => exact ⟨o, by simp [nearStep, hatt]⟩
        | some b =>
          by_cases hd : distance p o < distance p b
          · exact ⟨o, by simp [nearStep, hatt, hd]⟩
          · exact ⟨b, by simp [nearStep, hatt, hd]⟩
      obtain ⟨b, hb⟩ := hsome
      rw [hb] at h
      obtain ⟨q, hq⟩ := nearStep_foldl_some p l2 b
      rw [h] at hq
      simp at hq
  · intro h
    rw [findNearest]
    induction l with
    | nil => rfl
    | cons o l ih =>
      simp only [List.foldl_cons]
      have ho : o.isAttached = false := h o (List.mem_cons_self _ _)
      have hstep : nearStep p none o = none := by simp [nearStep, ho]
      rw [hstep]
      exact ih (fun o' ho' => h o' (List.mem_cons_of_mem _ ho'))

/-- C5: whenever the nearest-attached scan returns a particle, that particle
is an attached member of the scanned list whose Euclidean distance to the
probe particle is minimal among all attached particles of the list. -/
theorem C5_nearest_is_min (p : Particle) (l : List Particle) (q : Particle)
    (h : findNearest p l = some q) :
    q ∈ l ∧ q.isAttached = true ∧
      ∀ o ∈ l, o.isAttached = true → distance p q ≤ distance p o := by
  obtain ⟨hmin, -, hmem⟩ := nearStep_foldl_min p l none q h
  rcases hmem with ⟨h1, h2⟩ | h1
  · exact ⟨h1, h2, hmin⟩
  · simp at h1

/-- C5 witness: the scan on a concrete singleton list returns its attached
member. -/
theorem C5_witness : seedParticle ∈ [seedParticle] ∧ seedParticle.isAttached = true :=
  ⟨(C5_nearest_is_min farFree [seedParticle] seedParticle rfl).1,
   (C5_nearest_is_min farFree [seedParticle] seedParticle rfl).2.1⟩

/-- C7: the normalization guard.  When the distance between a free particle
and its nearest attached particle is exactly zero, the force-application step
leaves the particle completely unchanged: no division is performed on the
zero-length direction and no force is added that tick. -/
theorem C7_zero_length_guard (p q : Particle) (h : distance p q = 0) :
    applyForce q p = p := by
  have hnn : 0 ≤ (p.x - q.x) * (p.x - q.x) + (p.y - q.y) * (p.y - q.y) +
      (p.z - q.z) * (p.z - q.z) :=
    add_nonneg (add_nonneg (mul_self_nonneg _) (mul_self_nonneg _)) (mul_self_nonneg _)
  rw [distance] at h
  have hzero : (p.x - q.x) * (p.x - q.x) + (p.y - q.y) * (p.y - q.y) +
      (p.z - q.z) * (p.z - q.z) = 0 := (Real.sqrt_eq_zero hnn).mp h
  have h1 : (p.x - q.x) * (p.x - q.x) = 0 :=
    le_antisymm (by nlinarith [mul_self_nonneg (p.y - q.y), mul_self_nonneg (p.z - q.z)])
      (mul_self_nonneg _)
  have h2 : (p.y - q.y) * (p.y - q.y) = 0 :=
    le_antisymm (by nlinarith [mul_self_nonneg (p.x - q.x), mul_self_nonneg (p.z - q.z)])
      (mul_self_nonneg _)
  have h3 : (p.z - q.z) * (p.z - q.z) = 0 :=
    le_antisymm (by nlinarith [mul_self_nonneg (p.x - q.x), mul_self_nonneg (p.y - q.y)])
      (mul_self_nonneg _)
  have hx : q.x = p.x := (sub_eq_zero.mp (mul_self_eq_zero.mp h1)).symm
  have hy : q.y = p.y := (sub_eq_zero.mp (mul_self_eq_zero.mp h2)).symm
  have hz : q.z = p.z := (sub_eq_zero.mp (mul_self_eq_zero.mp h3)).symm
  simp [applyForce, hx, hy, hz]

/-- C7 witness: the guard at a concrete coincident pair. -/
theorem C7_witness :
    distance seedParticle seedParticle = 0 ∧
      applyForce seedParticle seedParticle = seedParticle := by
  have hd : distance seedParticle seedParticle = 0 := by
    simp [distance]
  exact ⟨hd, C7_zero_length_guard seedParticle seedParticle hd⟩

-- ## Evaluation helpers for axis-aligned concrete states

lemma distance_xaxis (a b : Particle) (hy : a.y = b.y) (hz : a.z = b.z)
    (hx : b.x ≤ a.x) : distance a b = a.x - b.x := by
  rw [distance, hy, hz, sub_self, sub_self, mul_zero, add_zero, add_zero]
  exact Real.sqrt_mul_self (by linarith)

lemma applyForce_left (q p : Particle) (hy : q.y = p.y) (hz : q.z = p.z)
    (hx : q.x < p.x) : applyForce q p = { p with dx := p.dx - ATTRACTION_FORCE } := by
  have hne : p.x - q.x ≠ 0 := by
    intro h
    have : p.x = q.x := by linarith [sub_eq_zero.mp h]
    linarith
  simp only [applyForce, hy, hz, sub_self, mul_zero, add_zero]
  rw [show (q.x - p.x) * (q.x - p.x) = (p.x - q.x) * (p.x - q.x) by ring]
  rw [Real.sqrt_mul_self (by linarith : (0:ℝ) ≤ p.x - q.x)]
  rw [if_pos (by linarith : p.x - q.x > 0)]
  have hdiv : (q.x - p.x) / (p.x - q.x) = -1 := by
    rw [div_eq_iff hne]
    ring
  ext
  · rfl
  · rfl
  · rfl
  · rfl
  · rfl
  · show p.dx + (q.x - p.x) / (p.x - q.x) * ATTRACTION_FORCE = p.dx - ATTRACTION_FORCE
    rw [hdiv]
    ring
  · show p.dy + 0 / (p.x - q.x) * ATTRACTION_FORCE = p.dy
    rw [zero_div, zero_mul, add_zero]
  · show p.dz + 0 / (p.x - q.x) * ATTRACTION_FORCE = p.dz
    rw [zero_div, zero_mul, add_zero]

lemma brownianize_zero (p : Particle) : brownianize ((0:ℝ), (0:ℝ), (0:ℝ)) p = p := by
  ext <;> simp [brownianize]

lemma bounceX_id (p : Particle) (h1 : -BOUNDARY ≤ p.x) (h2 : p.x ≤ BOUNDARY) :
    bounceX p = p := by
  simp only [bounceX]
  rw [if_neg (not_lt.mpr h1), if_neg (not_lt.mpr h2)]

lemma bounceY_id (p : Particle) (h1 : -BOUNDARY ≤ p.y) (h2 : p.y ≤ BOUNDARY) :
    bounceY p = p := by
  simp only [bounceY]
  rw [if_neg (not_lt.mpr h1), if_neg (not_lt.mpr h2)]

lemma bounceZ_id (p : Particle) (h1 : -BOUNDARY ≤ p.z) (h2 : p.z ≤ BOUNDARY) :
    bounceZ p = p := by
  simp only [bounceZ]
  rw [if_neg (not_lt.mpr h1), if_neg (not_lt.mpr h2)]

lemma bounce_inBounds_id (p : Particle) (h : inBounds p) : bounce p = p := by
  obtain ⟨h1, h2, h3, h4, h5, h6⟩ := h
  rw [bounce, bounceX_id p h1 h2, bounceY_id p h3 h4, bounceZ_id p h5 h6]

/-- A zero Brownian draw followed by an in-bounds integration step is plain
position integration. -/
lemma move_zero (p : Particle)
    (hx1 : -BOUNDARY ≤ p.x + p.dx) (hx2 : p.x + p.dx ≤ BOUNDARY)
    (hy1 : -BOUNDARY ≤ p.y + p.dy) (hy2 : p.y + p.dy ≤ BOUNDARY)
    (hz1 : -BOUNDARY ≤ p.z + p.dz) (hz2 : p.z + p.dz ≤ BOUNDARY) :
    move ((0:ℝ), (0:ℝ), (0:ℝ)) p =
      { p with x := p.x + p.dx, y := p.y + p.dy, z := p.z + p.dz } := by
  rw [move, brownianize_zero]
  exact bounce_inBounds_id _ ⟨hx1, hx2, hy1, hy2, hz1, hz2⟩

lemma attract_none (p : Particle) : attract none p = p := rfl

-- ## Step-by-step unfolding of the loop

lemma updateLoop_nil (done : List Particle) (rs : List Draw) :
    updateLoop done [] rs = done := rfl

lemma updateLoop_cons_attached (done : List Particle) (p : Particle)
    (rest : List Particle) (rs : List Draw) (h : p.isAttached = true) :
    updateLoop done (p :: rest) rs = updateLoop (done ++ [p]) rest rs.tail := by
  rw [updateLoop]
  exact if_pos h

lemma updateLoop_cons_free (done : List Particle) (p : Particle)
    (rest : List Particle) (rs : List Draw) (h : p.isAttached = false) :
    updateLoop done (p :: rest) rs =
      updateLoop (done ++ [attract (findNearest (move (rs.headD (0, 0, 0)) p)
        (done ++ move (rs.headD (0, 0, 0)) p :: rest))
        (move (rs.headD (0, 0, 0)) p)]) rest rs.tail := by
  rw [updateLoop]
  rw [if_neg (by simp [h])]

-- ## C6: concrete boundary-bounce scenario

/-- The free particle of the boundary scenario: at `x = BOUNDARY + 0.01` with
velocity `dx = 0.1`. -/
def cpart : Particle :=
  { x := BOUNDARY + 0.01, y := 0, z := 0, radius := PARTICLE_RADIUS,
    isAttached := false, dx := 0.1, dy := 0, dz := 0 }

lemma cpart_move :
    move ((0:ℝ), (0:ℝ), (0:ℝ)) cpart =
      { x := 1, y := 0, z := 0, radius := PARTICLE_RADIUS,
        isAttached := false, dx := -0.05, dy := 0, dz := 0 } := by
  norm_num [move, brownianize, integrate, bounce, bounceX, bounceY, bounceZ,
    cpart, BOUNDARY, BROWNIAN_MOTION]

/-- C6: a free particle at exactly `x = BOUNDARY + 0.01` with `dx = 0.1` has,
after one tick with a zero Brownian draw, position `x = BOUNDARY` and velocity
`dx = -0.05`. -/
theorem C6_bounce_scenario :
    ∃ q, (updateParticles [cpart] [((0:ℝ), (0:ℝ), (0:ℝ))]).get? 0 = some q ∧
      q.x = BOUNDARY ∧ q.dx = -0.05 := by
  have hupd : updateParticles [cpart] [((0:ℝ), (0:ℝ), (0:ℝ))] =
      [{ x := 1, y := 0, z := 0, radius := PARTICLE_RADIUS,
         isAttached := false, dx := -0.05, dy := 0, dz := 0 }] := by
    rw [updateParticles, updateLoop_cons_free [] cpart [] _ rfl]
    simp only [List.headD, List.nil_append, cpart_move, List.tail_cons]
    have hscan : findNearest
        { x := 1, y := 0, z := 0, radius := PARTICLE_RADIUS,
          isAttached := false, dx := -0.05, dy := 0, dz := 0 }
        [{ x := 1, y := 0, z := 0, radius := PARTICLE_RADIUS,
           isAttached := false, dx := -0.05, dy := 0, dz := 0 }] = none := by
      simp [findNearest, nearStep]
    rw [hscan, attract_none, updateLoop_nil]
  refine ⟨_, by rw [hupd]; rfl, by norm_num [BOUNDARY], by norm_num⟩

-- ## C4: concrete attraction scenario (seed plus one free particle on the x axis)

/-- Free particle on the x axis at `x` with velocity `v` along x. -/
def freeAt (x v : ℝ) : Particle :=
  { x := x, y := 0, z := 0, radius := PARTICLE_RADIUS, isAttached := false,
    dx := v, dy := 0, dz := 0 }

/-- Seed plus one free particle, the scenario state. -/
def twoState (x v : ℝ) : List Particle := [seedParticle, freeAt x v]

/-- Zero Brownian draws for both slots. -/
def zeroDraws : List Draw := [((0:ℝ), (0:ℝ), (0:ℝ)), ((0:ℝ), (0:ℝ), (0:ℝ))]

/-- The particle after it attaches at position `x`: radius grown, velocity
zeroed. -/
def attachedAt (x : ℝ) : Particle :=
  { x := x, y := 0, z := 0, radius := PARTICLE_RADIUS + GROWTH_RATE,
    isAttached := true, dx := 0, dy := 0, dz := 0 }

lemma freeAt_move (x v : ℝ) (h0 : 0 < x + v) (h1 : x + v ≤ 1) :
    move ((0:ℝ), (0:ℝ), (0:ℝ)) (freeAt x v) = freeAt (x + v) v := by
  have hb := move_zero (freeAt x v)
    (by show -BOUNDARY ≤ x + v; rw [BOUNDARY]; linarith)
    (by show x + v ≤ BOUNDARY; rw [BOUNDARY]; linarith)
    (by norm_num [freeAt, BOUNDARY]) (by norm_num [freeAt, BOUNDARY])
    (by norm_num [freeAt, BOUNDARY]) (by norm_num [freeAt, BOUNDARY])
  rw [hb]
  ext <;> norm_num [freeAt]

lemma freeAt_scan (x v w : ℝ) :
    findNearest (freeAt x v) [seedParticle, freeAt x w] = some seedParticle := by
  simp [findNearest, nearStep, seedParticle, freeAt]

lemma freeAt_dist (x v : ℝ) (h : 0 ≤ x) :
    distance (freeAt x v) seedParticle = x := by
  have hd := distance_xaxis (freeAt x v) seedParticle
    (by norm_num [freeAt, seedParticle]) (by norm_num [freeAt, seedParticle])
    (by show seedParticle.x ≤ x; norm_num [seedParticle]; exact h)
  rw [hd]
  norm_num [freeAt, seedParticle]

lemma freeAt_force (x v : ℝ) (h0 : 0 < x) :
    applyForce seedParticle (freeAt x v) = freeAt x (v - ATTRACTION_FORCE) := by
  have hf := applyForce_left seedParticle (freeAt x v)
    (by norm_num [freeAt, seedParticle]) (by norm_num [freeAt, seedParticle])
    (by show seedParticle.x < x; norm_num [seedParticle]; exact h0)
  rw [hf]
  ext <;> norm_num [freeAt]

/-- One tick of the scenario while the particle stays inside the attraction
range but outside the attachment threshold. -/
lemma twoState_step_mid (x v : ℝ) (h0 : 0 < x + v) (h2 : x + v < 0.15)
    (h3 : ¬ x + v < 0.054) :
    updateParticles (twoState x v) zeroDraws = twoState (x + v) (v - 0.0005) := by
  rw [updateParticles, twoState, updateLoop_cons_attached _ _ _ _ rfl]
  simp only [List.nil_append, zeroDraws, List.tail_cons]
  rw [updateLoop_cons_free _ _ _ _ rfl, updateLoop_nil]
  simp only [List.headD, List.singleton_append]
  rw [freeAt_move x v h0 (by linarith)]
  rw [freeAt_scan]
  have hd : distance (freeAt (x + v) v) seedParticle = x + v :=
    freeAt_dist (x + v) v (le_of_lt h0)
  simp only [attract, hd]
  rw [if_pos (by rw [ATTRACTION_RANGE]; exact h2)]
  rw [if_neg (by
    show ¬ x + v < (seedParticle.radius + (freeAt (x + v) v).radius) * 0.9
    norm_num [seedParticle, freeAt, PARTICLE_RADIUS]
    linarith [not_lt.mp h3])]
  rw [freeAt_force (x + v) v h0]
  rw [show v - ATTRACTION_FORCE = v - 0.0005 by rw [ATTRACTION_FORCE]]
  rfl

/-- One tick of the scenario once the particle is inside the attachment
threshold: it attaches, grows by `GROWTH_RATE` and stops. -/
lemma twoState_step_attach (x v : ℝ) (h0 : 0 < x + v) (h2 : x + v < 0.054) :
    updateParticles (twoState x v) zeroDraws = [seedParticle, attachedAt (x + v)] := by
  rw [updateParticles, twoState, updateLoop_cons_attached _ _ _ _ rfl]
  simp only [List.nil_append, zeroDraws, List.tail_cons]
  rw [updateLoop_cons_free _ _ _ _ rfl, updateLoop_nil]
  simp only [List.headD, List.singleton_append]
  rw [freeAt_move x v h0 (by linarith)]
  rw [freeAt_scan]
  have hd : distance (freeAt (x + v) v) seedParticle = x + v :=
    freeAt_dist (x + v) v (le_of_lt h0)
  simp only [attract, hd]
  rw [if_pos (by rw [ATTRACTION_RANGE]; linarith)]
  rw [if_pos (by
    show x + v < (seedParticle.radius + (freeAt (x + v) v).radius) * 0.9
    norm_num [seedParticle, freeAt, PARTICLE_RADIUS]
    linarith)]
  have hrec : ({ (applyForce seedParticle (freeAt (x + v) v)) with
      isAttached := true,
      radius := (freeAt (x + v) v).radius + GROWTH_RATE,
      dx := 0, dy := 0, dz := 0 } : Particle) = attachedAt (x + v) := by
    ext <;> simp [applyForce_x, applyForce_y, applyForce_z, freeAt, attachedAt]
  rw [hrec]

/-- The scenario run: seed at the origin, free particle at rest at distance
`0.075 = 0.5 * ATTRACTION_RANGE`, zero Brownian draws every tick. -/
def dlaState (k : ℕ) : List Particle :=
  advanceMany (List.replicate k zeroDraws) (twoState 0.075 0)

/-- Distance from the particle in slot 1 to the seed. -/
def distToSeed (ps : List Particle) : ℝ :=
  distance ((ps.get? 1).getD seedParticle) seedParticle

lemma dlaState_succ (k : ℕ) :
    dlaState (k + 1) = updateParticles (dlaState k) zeroDraws := by
  rw [dlaState, dlaState, List.replicate_succ', advanceMany, advanceMany,
    List.foldl_append, List.foldl_cons, List.foldl_nil]

lemma distToSeed_twoState (a b : ℝ) (h : 0 ≤ a) : distToSeed (twoState a b) = a := by
  rw [distToSeed]
  show distance (freeAt a b) seedParticle = a
  exact freeAt_dist a b h

lemma distToSeed_attached (a : ℝ) (h : 0 ≤ a) :
    distToSeed [seedParticle, attachedAt a] = a := by
  rw [distToSeed]
  show distance (attachedAt a) seedParticle = a
  have hd := distance_xaxis (attachedAt a) seedParticle
    (by norm_num [attachedAt, seedParticle]) (by norm_num [attachedAt, seedParticle])
    (by show seedParticle.x ≤ a; norm_num [seedParticle]; exact h)
  rw [hd]
  norm_num [attachedAt, seedParticle]

/-- The full concrete run: the particle does not move on tick 1, then closes
in by an increasing amount per tick, and attaches on tick 10. -/
lemma dlaState_vals :
    dlaState 1 = twoState 0.075 (-0.0005) ∧
    dlaState 2 = twoState 0.0745 (-0.001) ∧
    dlaState 3 = twoState 0.0735 (-0.0015) ∧
    dlaState 4 = twoState 0.072 (-0.002) ∧
    dlaState 5 = twoState 0.07 (-0.0025) ∧
    dlaState 6 = twoState 0.0675 (-0.003) ∧
    dlaState 7 = twoState 0.0645 (-0.0035) ∧
    dlaState 8 = twoState 0.061 (-0.004) ∧
    dlaState 9 = twoState 0.057 (-0.0045) ∧
    dlaState 10 = [seedParticle, attachedAt 0.0525] := by
  have e1 : dlaState 1 = twoState 0.075 (-0.0005) := by
    rw [dlaState_succ 0, show dlaState 0 = twoState 0.075 0 from rfl,
      twoState_step_mid 0.075 0 (by norm_num) (by norm_num) (by norm_num)]
    norm_num
  have e2 : dlaState 2 = twoState 0.0745 (-0.001) := by
    rw [dlaState_succ 1, e1,
      twoState_step_mid 0.075 (-0.0005) (by norm_num) (by norm_num) (by norm_num)]
    norm_num
  have e3 : dlaState 3 = twoState 0.0735 (-0.0015) := by
    rw [dlaState_succ 2, e2,
      twoState_step_mid 0.0745 (-0.001) (by norm_num) (by norm_num) (by norm_num)]
    norm_num
  have e4 : dlaState 4 = twoState 0.072 (-0.002) := by
    rw [dlaState_succ 3, e3,
      twoState_step_mid 0.0735 (-0.0015) (by norm_num) (by norm_num) (by norm_num)]
    norm_num
  have e5 : dlaState 5 = twoState 0.07 (-0.0025) := by
    rw [dlaState_succ 4, e4,
      twoState_step_mid 0.072 (-0.002) (by norm_num) (by norm_num) (by norm_num)]
    norm_num
  have e6 : dlaState 6 = twoState 0.0675 (-0.003) := by
    rw [dlaState_succ 5, e5,
      twoState_step_mid 0.07 (-0.0025) (by norm_num) (by norm_num) (by norm_num)]
    norm_num
  have e7 : dlaState 7 = twoState 0.0645 (-0.0035) := by
    rw [dlaState_succ 6, e6,
      twoState_step_mid 0.0675 (-0.003) (by norm_num) (by norm_num) (by norm_num)]
    norm_num
  have e8 : dlaState 8 = twoState 0.061 (-0.004) := by
    rw [dlaState_succ 7, e7,
      twoState_step_mid 0.0645 (-0.0035) (by norm_num) (by norm_num) (by norm_num)]
    norm_num
  have e9 : dlaState 9 = twoState 0.057 (-0.0045) := by
    rw [dlaState_succ 8, e8,
      twoState_step_mid 0.061 (-0.004) (by norm_num) (by norm_num) (by norm_num)]
    norm_num
  have e10 : dlaState 10 = [seedParticle, attachedAt 0.0525] := by
    rw [dlaState_succ 9, e9,
      twoState_step_attach 0.057 (-0.0045) (by norm_num) (by norm_num)]
    norm_num
  exact ⟨e1, e2, e3, e4, e5, e6, e7, e8, e9, e10⟩

/-- C4 counterexample: on the very first tick of the concrete scenario the
free particle's velocity is still zero when the position is integrated, so the
distance to the seed is unchanged (0.075), not strictly decreased, while the
attachment threshold has not been crossed — refuting "strictly decreases each
tick". -/
theorem C4_counterexample :
    (dlaState 1).get? 1 = some (freeAt 0.075 (-0.0005)) ∧
    (freeAt 0.075 (-0.0005)).isAttached = false ∧
    distToSeed (dlaState 1) = distToSeed (dlaState 0) ∧
    ¬ distToSeed (dlaState 1) < distToSeed (dlaState 0) := by
  obtain ⟨e1, -, -, -, -, -, -, -, -, -⟩ := dlaState_vals
  have hd1 : distToSeed (dlaState 1) = 0.075 := by
    rw [e1]
    exact distToSeed_twoState _ _ (by norm_num)
  have hd0 : distToSeed (dlaState 0) = 0.075 := by
    rw [show dlaState 0 = twoState 0.075 0 from rfl]
    exact distToSeed_twoState _ _ (by norm_num)
  refine ⟨by rw [e1]; rfl, rfl, by rw [hd1, hd0], by rw [hd1, hd0]; exact lt_irrefl _⟩

/-- C4 (amended): in the concrete scenario the distance to the seed is
unchanged on tick 1 (the velocity starts at zero and force is applied after
integration) and strictly decreases on every subsequent tick; on tick 10 it
falls below `0.9` times the combined radii, the particle attaches with radius
`PARTICLE_RADIUS + GROWTH_RATE`, and its slot never changes again under any
further ticks. -/
theorem C4_attraction_run :
    distToSeed (dlaState 0) = 0.075 ∧
    dlaState 1 = twoState 0.075 (-0.0005) ∧
    dlaState 2 = twoState 0.0745 (-0.001) ∧
    dlaState 3 = twoState 0.0735 (-0.0015) ∧
    dlaState 4 = twoState 0.072 (-0.002) ∧
    dlaState 5 = twoState 0.07 (-0.0025) ∧
    dlaState 6 = twoState 0.0675 (-0.003) ∧
    dlaState 7 = twoState 0.0645 (-0.0035) ∧
    dlaState 8 = twoState 0.061 (-0.004) ∧
    dlaState 9 = twoState 0.057 (-0.0045) ∧
    dlaState 10 = [seedParticle, attachedAt 0.0525] ∧
    distToSeed (dlaState 1) = distToSeed (dlaState 0) ∧
    distToSeed (dlaState 2) < distToSeed (dlaState 1) ∧
    distToSeed (dlaState 3) < distToSeed (dlaState 2) ∧
    distToSeed (dlaState 4) < distToSeed (dlaState 3) ∧
    distToSeed (dlaState 5) < distToSeed (dlaState 4) ∧
    distToSeed (dlaState 6) < distToSeed (dlaState 5) ∧
    distToSeed (dlaState 7) < distToSeed (dlaState 6) ∧
    distToSeed (dlaState 8) < distToSeed (dlaState 7) ∧
    distToSeed (dlaState 9) < distToSeed (dlaState 8) ∧
    distToSeed (dlaState 10) < distToSeed (dlaState 9) ∧
    (¬ distToSeed (dlaState 9) < (seedParticle.radius + PARTICLE_RADIUS) * 0.9) ∧
    distToSeed (dlaState 10) < (seedParticle.radius + PARTICLE_RADIUS) * 0.9 ∧
    (attachedAt 0.0525).isAttached = true ∧
    (attachedAt 0.0525).radius = PARTICLE_RADIUS + GROWTH_RATE ∧
    ∀ rss, (advanceMany rss (dlaState 10)).get? 1 = some (attachedAt 0.0525) := by
  obtain ⟨e1, e2, e3, e4, e5, e6, e7, e8, e9, e10⟩ := dlaState_vals
  have hd0 : distToSeed (dlaState 0) = 0.075 := by
    rw [show dlaState 0 = twoState 0.075 0 from rfl]
    exact distToSeed_twoState _ _ (by norm_num)
  have hd1 : distToSeed (dlaState 1) = 0.075 := by
    rw [e1]; exact distToSeed_twoState _ _ (by norm_num)
  have hd2 : distToSeed (dlaState 2) = 0.0745 := by
    rw [e2]; exact distToSeed_twoState _ _ (by norm_num)
  have hd3 : distToSeed (dlaState 3) = 0.0735 := by
    rw [e3]; exact distToSeed_twoState _ _ (by norm_num)
  have hd4 : distToSeed (dlaState 4) = 0.072 := by
    rw [e4]; exact distToSeed_twoState _ _ (by norm_num)
  have hd5 : distToSeed (dlaState 5) = 0.07 := by
    rw [e5]; exact distToSeed_twoState _ _ (by norm_num)
  have hd6 : distToSeed (dlaState 6) = 0.0675 := by
    rw [e6]; exact distToSeed_twoState _ _ (by norm_num)
  have hd7 : distToSeed (dlaState 7) = 0.0645 := by
    rw [e7]; exact distToSeed_twoState _ _ (by norm_num)
  have hd8 : distToSeed (dlaState 8) = 0.061 := by
    rw [e8]; exact distToSeed_twoState _ _ (by norm_num)
  have hd9 : distToSeed (dlaState 9) = 0.057 := by
    rw [e9]; exact distToSeed_twoState _ _ (by norm_num)
  have hd10 : distToSeed (dlaState 10) = 0.0525 := by
    rw [e10]; exact distToSeed_attached _ (by norm_num)
  refine ⟨hd0, e1, e2, e3, e4, e5, e6, e7, e8, e9, e10,
    by rw [hd0, hd1], by rw [hd1, hd2]; norm_num, by rw [hd2, hd3]; norm_num,
    by rw [hd3, hd4]; norm_num, by rw [hd4, hd5]; norm_num,
    by rw [hd5, hd6]; norm_num, by rw [hd6, hd7]; norm_num,
    by rw [hd7, hd8]; norm_num, by rw [hd8, hd9]; norm_num,
    by rw [hd9, hd10]; norm_num,
    by rw [hd9]; norm_num [seedParticle, PARTICLE_RADIUS],
    by rw [hd10]; norm_num [seedParticle, PARTICLE_RADIUS],
    rfl, rfl, ?_⟩
  intro rss
  exact attached_get_many rss (dlaState 10) 1 (attachedAt 0.0525)
    (by rw [e10]; rfl) rfl

-- ## C9/C10: order effects within one pass

def zeroDraws3 : List Draw :=
  [((0:ℝ), (0:ℝ), (0:ℝ)), ((0:ℝ), (0:ℝ), (0:ℝ)), ((0:ℝ), (0:ℝ), (0:ℝ))]

lemma foldl_nearStep_all_free (p : Particle) (l : List Particle)
    (h : ∀ o ∈ l, o.isAttached = false) (acc : Option Particle) :
    l.foldl (nearStep p) acc = acc := by
  induction l generalizing acc with
  | nil => rfl
  | cons o l ih =>
    rw [List.foldl_cons,
      show nearStep p acc o = acc by simp [nearStep, h o (List.mem_cons_self _ _)]]
    exact ih (fun o' ho' => h o' (List.mem_cons_of_mem _ ho')) acc

lemma findNearest_seed_frees (p : Particle) (l : List Particle)
    (h : ∀ o ∈ l, o.isAttached = false) :
    findNearest p (seedParticle :: l) = some seedParticle := by
  rw [findNearest, List.foldl_cons,
    show nearStep p none seedParticle = some seedParticle by simp [nearStep, seedParticle]]
  exact foldl_nearStep_all_free p l h _

lemma attract_seed_mid (x v : ℝ) (h0 : 0 < x) (h2 : x < 0.15) (h3 : ¬ x < 0.054) :
    attract (some seedParticle) (freeAt x v) = freeAt x (v - 0.0005) := by
  have hd : distance (freeAt x v) seedParticle = x := freeAt_dist x v (le_of_lt h0)
  simp only [attract, hd]
  rw [if_pos (by rw [ATTRACTION_RANGE]; exact h2)]
  rw [if_neg (by
    show ¬ x < (seedParticle.radius + (freeAt x v).radius) * 0.9
    norm_num [seedParticle, freeAt, PARTICLE_RADIUS]
    linarith [not_lt.mp h3])]
  rw [freeAt_force x v h0]
  rw [show v - ATTRACTION_FORCE = v - 0.0005 by rw [ATTRACTION_FORCE]]

lemma attract_seed_attach (x v : ℝ) (h0 : 0 < x) (h2 : x < 0.054) :
    attract (some seedParticle) (freeAt x v) = attachedAt x := by
  have hd : distance (freeAt x v) seedParticle = x := freeAt_dist x v (le_of_lt h0)
  simp only [attract, hd]
  rw [if_pos (by rw [ATTRACTION_RANGE]; linarith)]
  rw [if_pos (by
    show x < (seedParticle.radius + (freeAt x v).radius) * 0.9
    norm_num [seedParticle, freeAt, PARTICLE_RADIUS]
    linarith)]
  ext <;> simp [applyForce_x, applyForce_y, applyForce_z, freeAt, attachedAt]

lemma dist_f9_a5 : distance (freeAt 0.09 0) (attachedAt 0.05) = 0.04 := by
  have hd := distance_xaxis (freeAt 0.09 0) (attachedAt 0.05)
    (by norm_num [freeAt, attachedAt]) (by norm_num [freeAt, attachedAt])
    (by norm_num [freeAt, attachedAt])
  rw [hd]
  norm_num [freeAt, attachedAt]

/-- In the scan after the first particle has attached, the newly attached
particle (not the seed) is the nearest attached one. -/
lemma scan_after_attach :
    findNearest (freeAt 0.09 0) [seedParticle, attachedAt 0.05, freeAt 0.09 0] =
      some (attachedAt 0.05) := by
  rw [findNearest]
  simp only [List.foldl_cons, List.foldl_nil]
  rw [show nearStep (freeAt 0.09 0) none seedParticle = some seedParticle by
    simp [nearStep, seedParticle]]
  have hdseed : distance (freeAt 0.09 0) seedParticle = 0.09 :=
    freeAt_dist 0.09 0 (by norm_num)
  rw [show nearStep (freeAt 0.09 0) (some seedParticle) (attachedAt 0.05) =
      some (attachedAt 0.05) by
    simp only [nearStep, dist_f9_a5, hdseed]
    norm_num [attachedAt]]
  simp [nearStep, freeAt]

lemma attract_newly_attached :
    attract (some (attachedAt 0.05)) (freeAt 0.09 0) = attachedAt 0.09 := by
  simp only [attract, dist_f9_a5]
  rw [if_pos (by rw [ATTRACTION_RANGE]; norm_num)]
  rw [if_pos (by
    show (0.04 : ℝ) < ((attachedAt 0.05).radius + (freeAt 0.09 0).radius) * 0.9
    norm_num [attachedAt, freeAt, PARTICLE_RADIUS, GROWTH_RATE])]
  ext <;> simp [applyForce_x, applyForce_y, applyForce_z, freeAt, attachedAt]

/-- One tick on the order seed, near free particle, far free particle: both
free particles attach; the far one attaches to the near one, which attached
earlier in the same pass. -/
lemma ps0_eval :
    updateParticles [seedParticle, freeAt 0.05 0, freeAt 0.09 0] zeroDraws3 =
      [seedParticle, attachedAt 0.05, attachedAt 0.09] := by
  rw [updateParticles, updateLoop_cons_attached _ _ _ _ rfl]
  simp only [List.nil_append, zeroDraws3, List.tail_cons]
  rw [updateLoop_cons_free _ _ _ _ rfl]
  simp only [List.headD, List.singleton_append]
  rw [freeAt_move 0.05 0 (by norm_num) (by norm_num),
    show (0.05 + 0 : ℝ) = 0.05 by norm_num]
  rw [findNearest_seed_frees _ _ (by
    intro o ho
    rcases List.mem_cons.mp ho with h | h
    · rw [h]; rfl
    · rw [List.mem_singleton.mp h]; rfl)]
  rw [attract_seed_attach 0.05 0 (by norm_num) (by norm_num)]
  rw [updateLoop_cons_free _ _ _ _ rfl]
  simp only [List.headD, List.tail_cons, List.cons_append, List.nil_append]
  rw [freeAt_move 0.09 0 (by norm_num) (by norm_num),
    show (0.09 + 0 : ℝ) = 0.09 by norm_num]
  rw [scan_after_attach, attract_newly_attached, updateLoop_nil]

/-- One tick on the order seed, far free particle, near free particle: the far
particle is processed before anything new attaches, sees only the seed
(distance 0.09, outside the attachment threshold), and stays free. -/
lemma ps1_eval :
    updateParticles [seedParticle, freeAt 0.09 0, freeAt 0.05 0] zeroDraws3 =
      [seedParticle, freeAt 0.09 (-0.0005), attachedAt 0.05] := by
  rw [updateParticles, updateLoop_cons_attached _ _ _ _ rfl]
  simp only [List.nil_append, zeroDraws3, List.tail_cons]
  rw [updateLoop_cons_free _ _ _ _ rfl]
  simp only [List.headD, List.singleton_append]
  rw [freeAt_move 0.09 0 (by norm_num) (by norm_num),
    show (0.09 + 0 : ℝ) = 0.09 by norm_num]
  rw [findNearest_seed_frees _ _ (by
    intro o ho
    rcases List.mem_cons.mp ho with h | h
    · rw [h]; rfl
    · rw [List.mem_singleton.mp h]; rfl)]
  rw [attract_seed_mid 0.09 0 (by norm_num) (by norm_num) (by norm_num),
    show (0 - 0.0005 : ℝ) = -0.0005 by norm_num]
  rw [updateLoop_cons_free _ _ _ _ rfl]
  simp only [List.headD, List.tail_cons, List.cons_append, List.nil_append]
  rw [freeAt_move 0.05 0 (by norm_num) (by norm_num),
    show (0.05 + 0 : ℝ) = 0.05 by norm_num]
  rw [findNearest_seed_frees _ _ (by
    intro o ho
    rcases List.mem_cons.mp ho with h | h
    · rw [h]; rfl
    · rw [List.mem_singleton.mp h]; rfl)]
  rw [attract_seed_attach 0.05 0 (by norm_num) (by norm_num), updateLoop_nil]

/-- C10: a particle that attaches during the pass is immediately visible to
free particles processed later in the same pass: with seed at the origin, a
free particle at `x = 0.05` and a free particle at `x = 0.09`, one tick
attaches both; the later particle's nearest attached target at its processing
time is the newly attached first particle (not the seed), and against the seed
alone it would not have attached that tick. -/
theorem C10_same_pass_visibility :
    updateParticles [seedParticle, freeAt 0.05 0, freeAt 0.09 0] zeroDraws3 =
      [seedParticle, attachedAt 0.05, attachedAt 0.09] ∧
    (attachedAt 0.05).isAttached = true ∧
    (attachedAt 0.09).isAttached = true ∧
    findNearest (freeAt 0.09 0) [seedParticle, attachedAt 0.05, freeAt 0.09 0] =
      some (attachedAt 0.05) ∧
    ¬ distance (freeAt 0.09 0) seedParticle <
        (seedParticle.radius + (freeAt 0.09 0).radius) * 0.9 := by
  refine ⟨ps0_eval, rfl, rfl, scan_after_attach, ?_⟩
  rw [freeAt_dist 0.09 0 (by norm_num)]
  norm_num [seedParticle, freeAt, PARTICLE_RADIUS]

/-- C9 counterexample: swapping the two free particles of the C10 state (with
identical all-zero per-particle draws) changes the outcome of one tick even up
to permutation: in one order both free particles attach, in the other only
one does, so the results are not permutations of each other. -/
theorem C9_counterexample :
    ([seedParticle, freeAt 0.09 0, freeAt 0.05 0] : List Particle).Perm
      [seedParticle, freeAt 0.05 0, freeAt 0.09 0] ∧
    ¬ (updateParticles [seedParticle, freeAt 0.09 0, freeAt 0.05 0] zeroDraws3).Perm
        (updateParticles [seedParticle, freeAt 0.05 0, freeAt 0.09 0] zeroDraws3) := by
  constructor
  · exact List.Perm.cons seedParticle (List.Perm.swap (freeAt 0.05 0) (freeAt 0.09 0) [])
  · rw [ps0_eval, ps1_eval]
    intro h
    have hc := h.countP_eq (·.isAttached)
    simp [List.countP_cons, seedParticle, freeAt, attachedAt] at hc

-- ## C9 amended: permutation equivariance without same-pass attachments or ties

/-- The attached sublist of a state (what the nearest scan can return). -/
def attachedOf (ps : List Particle) : List Particle := ps.filter (·.isAttached)

/-- Per (particle, draw) pair: if the particle is free, then after its motion
step it has a strictly unique nearest attached particle among `A` (or `A` is
empty) and it does not cross the attachment threshold against it. -/
def OrderFree (A : List Particle) (pr : Particle × Draw) : Prop :=
  pr.1.isAttached = false →
    (A = [] ∨ ∃ q, q ∈ A ∧
      (∀ o ∈ A, o = q ∨ distance (move pr.2 pr.1) q < distance (move pr.2 pr.1) o) ∧
      ¬ distance (move pr.2 pr.1) q < (q.radius + (move pr.2 pr.1).radius) * 0.9)

/-- The per-pair update against the fixed attached list `A`. -/
def stepFun (A : List Particle) (pr : Particle × Draw) : Particle :=
  if pr.1.isAttached then pr.1
  else attract (findNearest (move pr.2 pr.1) A) (move pr.2 pr.1)

lemma attachedOf_nil : attachedOf [] = [] := rfl

lemma attachedOf_append (l1 l2 : List Particle) :
    attachedOf (l1 ++ l2) = attachedOf l1 ++ attachedOf l2 :=
  List.filter_append _ _

lemma attachedOf_cons_free (p : Particle) (l : List Particle)
    (h : p.isAttached = false) : attachedOf (p :: l) = attachedOf l := by
  simp [attachedOf, List.filter_cons, h]

lemma attachedOf_cons_att (p : Particle) (l : List Particle)
    (h : p.isAttached = true) : attachedOf (p :: l) = p :: attachedOf l := by
  simp [attachedOf, List.filter_cons, h]

lemma attachedOf_mem_att (l : List Particle) : ∀ o ∈ attachedOf l, o.isAttached = true := by
  intro o ho
  simpa using (List.mem_filter.mp ho).2

/-- With a strictly unique nearest attached member, the scan returns it
regardless of list order. -/
lemma findNearest_unique (p q : Particle) (l : List Particle)
    (hq : q ∈ l) (hatt : q.isAttached = true)
    (huniq : ∀ o ∈ l, o.isAttached = true → o = q ∨ distance p q < distance p o) :
    findNearest p l = some q := by
  cases hfn : findNearest p l with
  | none =>
    have hfr := (findNearest_eq_none_iff p l).mp hfn q hq
    rw [hatt] at hfr
    cases hfr
  | some q2 =>
    obtain ⟨hmin, -, hmem⟩ := nearStep_foldl_min p l none q2 hfn
    rcases hmem with ⟨hmem2, hatt2⟩ | habs
    · rcases huniq q2 hmem2 hatt2 with h | h
      · rw [h]
      · exact absurd (hmin q hq hatt) (not_le.mpr h)
    · simp at habs

lemma findNearest_perm_attached (p q : Particle) (l A : List Particle)
    (hperm : (attachedOf l).Perm A) (hq : q ∈ A)
    (huniq : ∀ o ∈ A, o = q ∨ distance p q < distance p o) :
    findNearest p l = some q := by
  have hqA : q ∈ attachedOf l := hperm.mem_iff.mpr hq
  have hql : q ∈ l := (List.mem_filter.mp hqA).1
  have hqatt : q.isAttached = true := by simpa using (List.mem_filter.mp hqA).2
  exact findNearest_unique p q l hql hqatt (fun o ho hoatt =>
    huniq o (hperm.mem_iff.mp (List.mem_filter.mpr ⟨ho, by simp [hoatt]⟩)))

lemma findNearest_perm_nil (p : Particle) (l : List Particle)
    (hperm : (attachedOf l).Perm []) : findNearest p l = none := by
  rw [findNearest_eq_none_iff]
  intro o ho
  cases hatt : o.isAttached
  · rfl
  · exfalso
    have hmem : o ∈ attachedOf l := List.mem_filter.mpr ⟨ho, by simp [hatt]⟩
    rw [List.Perm.eq_nil hperm] at hmem
    simp at hmem

lemma attract_stays_free (q p1 : Particle) (hp : p1.isAttached = false)
    (hna : ¬ distance p1 q < (q.radius + p1.radius) * 0.9) :
    (attract (some q) p1).isAttached = false := by
  rcases attract_cases (some q) p1 with hc | ⟨q0, hq0, -, -, hc⟩ | ⟨q0, hq0, -, hlt, hc⟩
  · rw [hc]
    exact hp
  · rw [hc, applyForce_isAttached]
    exact hp
  · obtain rfl : q0 = q := (Option.some_inj.mp hq0.symm)
    exact absurd hlt hna

/-- Under the no-same-pass-attachment and unique-nearest conditions, the
sequential loop acts as an independent map over the (particle, draw) pairs,
with the fixed attached list `A` as every scan's effective input. -/
lemma updateLoop_map (A : List Particle) (hAatt : ∀ o ∈ A, o.isAttached = true) :
    ∀ (todo : List Particle) (rs : List Draw) (done : List Particle),
      rs.length = todo.length →
      (attachedOf done ++ attachedOf todo).Perm A →
      (∀ pr ∈ todo.zip rs, OrderFree A pr) →
      updateLoop done todo rs = done ++ (todo.zip rs).map (stepFun A) := by
  intro todo
  induction todo with
  | nil =>
    intro rs done hlen hperm hof
    simp [updateLoop_nil]
  | cons p rest ih =>
    intro rs done hlen hperm hof
    cases rs with
    | nil => simp at hlen
    | cons r rs2 =>
      have hlen2 : rs2.length = rest.length := by simpa using hlen
      by_cases hp : p.isAttached
      · rw [updateLoop_cons_attached _ _ _ _ hp, List.tail_cons]
        have hperm2 : (attachedOf (done ++ [p]) ++ attachedOf rest).Perm A := by
          rw [attachedOf_append, attachedOf_cons_att p [] hp]
          rw [attachedOf_cons_att _ _ hp] at hperm
          simpa [List.append_assoc] using hperm
        have hof2 : ∀ pr ∈ rest.zip rs2, OrderFree A pr := by
          intro pr hpr
          exact hof pr (by rw [List.zip_cons_cons]; exact List.mem_cons_of_mem _ hpr)
        rw [ih rs2 (done ++ [p]) hlen2 hperm2 hof2]
        rw [List.zip_cons_cons, List.map_cons]
        rw [show stepFun A (p, r) = p from by simp [stepFun, hp]]
        simp [List.append_assoc]
      · have hpf : p.isAttached = false := by simpa using hp
        rw [updateLoop_cons_free _ _ _ _ hpf]
        simp only [List.headD_cons, List.tail_cons]
        have hofh := hof (p, r) (by rw [List.zip_cons_cons]; exact List.mem_cons_self _ _)
        rw [attachedOf_cons_free _ _ hpf] at hperm
        have hmfree : (move r p).isAttached = false := by
          rw [move_isAttached]
          exact hpf
        have hscanperm : (attachedOf (done ++ move r p :: rest)).Perm A := by
          rw [attachedOf_append, attachedOf_cons_free _ _ hmfree]
          exact hperm
        have hof2 : ∀ pr ∈ rest.zip rs2, OrderFree A pr := by
          intro pr hpr
          exact hof pr (by rw [List.zip_cons_cons]; exact List.mem_cons_of_mem _ hpr)
        rcases hofh hpf with hA | ⟨q, hqA, huniq, hna⟩
        · subst hA
          rw [findNearest_perm_nil _ _ hscanperm, attract_none]
          have hperm2 : (attachedOf (done ++ [move r p]) ++ attachedOf rest).Perm
              ([] : List Particle) := by
            rw [attachedOf_append, attachedOf_cons_free _ _ hmfree]
            simpa [attachedOf_nil] using hperm
          rw [ih rs2 (done ++ [move r p]) hlen2 hperm2 hof2]
          rw [List.zip_cons_cons, List.map_cons]
          rw [show stepFun ([] : List Particle) (p, r) = move r p from by
            simp [stepFun, hpf, findNearest, attract_none]]
          simp [List.append_assoc]
        · rw [findNearest_perm_attached _ q _ A hscanperm hqA huniq]
          have hp2free : (attract (some q) (move r p)).isAttached = false :=
            attract_stays_free q (move r p) hmfree hna
          have hperm2 : (attachedOf (done ++ [attract (some q) (move r p)]) ++
              attachedOf rest).Perm A := by
            rw [attachedOf_append, attachedOf_cons_free _ _ hp2free]
            simpa [attachedOf_nil] using hperm
          rw [ih rs2 (done ++ [attract (some q) (move r p)]) hlen2 hperm2 hof2]
          rw [List.zip_cons_cons, List.map_cons]
          rw [show stepFun A (p, r) = attract (some q) (move r p) from by
            simp only [stepFun]
            rw [if_neg (by simp [hpf])]
            rw [findNearest_unique (move r p) q A hqA (hAatt q hqA)
              (fun o ho _ => huniq o ho)]]
          simp [List.append_assoc]

/-- C9 (amended): permuting the (particle, per-particle draw) sequence
commutes with one tick up to permutation of the output, provided no particle
crosses the attachment threshold during the pass and every free particle has
a strictly unique nearest attached particle (no distance ties).  (Without
these conditions the sequential in-place loop is order-dependent.) -/
theorem C9_order_independence_amended (ps ps' : List Particle) (rs rs' : List Draw)
    (hl : rs.length = ps.length) (hl' : rs'.length = ps'.length)
    (hperm : (ps.zip rs).Perm (ps'.zip rs'))
    (hof : ∀ pr ∈ ps.zip rs, OrderFree (attachedOf ps) pr) :
    (updateParticles ps' rs').Perm (updateParticles ps rs) := by
  have hps : ps.Perm ps' := by
    have h1 := hperm.map Prod.fst
    rwa [List.map_fst_zip ps rs (le_of_eq hl.symm),
      List.map_fst_zip ps' rs' (le_of_eq hl'.symm)] at h1
  have hA : (attachedOf ps').Perm (attachedOf ps) := by
    unfold attachedOf
    exact hps.symm.filter (·.isAttached)
  have hof2 : ∀ pr ∈ ps'.zip rs', OrderFree (attachedOf ps) pr :=
    fun pr hpr => hof pr (hperm.mem_iff.mpr hpr)
  have hAatt := attachedOf_mem_att ps
  rw [updateParticles, updateParticles,
    updateLoop_map (attachedOf ps) hAatt ps rs [] hl
      (by simp [attachedOf_nil]) hof,
    updateLoop_map (attachedOf ps) hAatt ps' rs' [] hl'
      (by simpa [attachedOf_nil] using hA) hof2]
  simpa using hperm.symm.map (stepFun (attachedOf ps))

/-- C9 witness: swapping a seed and one distant free particle (with equal
zero draws) permutes the tick's output. -/
theorem C9_witness :
    (updateParticles [freeAt 0.5 0, seedParticle]
        [((0:ℝ), (0:ℝ), (0:ℝ)), ((0:ℝ), (0:ℝ), (0:ℝ))]).Perm
      (updateParticles [seedParticle, freeAt 0.5 0]
        [((0:ℝ), (0:ℝ), (0:ℝ)), ((0:ℝ), (0:ℝ), (0:ℝ))]) := by
  have hAeq : attachedOf [seedParticle, freeAt 0.5 0] = [seedParticle] := by
    simp [attachedOf, List.filter_cons, seedParticle, freeAt]
  apply C9_order_independence_amended
  · rfl
  · rfl
  · exact List.Perm.swap (freeAt 0.5 0, ((0:ℝ), (0:ℝ), (0:ℝ)))
      (seedParticle, ((0:ℝ), (0:ℝ), (0:ℝ))) []
  · intro pr hpr
    have hmem : pr = (seedParticle, ((0:ℝ), (0:ℝ), (0:ℝ))) ∨
        pr = (freeAt 0.5 0, ((0:ℝ), (0:ℝ), (0:ℝ))) := by
      simpa using hpr
    rcases hmem with rfl | rfl
    · intro habs
      simp [seedParticle] at habs
    · intro hfree2
      right
      rw [hAeq]
      refine ⟨seedParticle, List.mem_singleton.mpr rfl, ?_, ?_⟩
      · intro o ho
        exact Or.inl (List.mem_singleton.mp ho)
      · rw [show move ((0:ℝ), (0:ℝ), (0:ℝ)) (freeAt 0.5 0) = freeAt 0.5 0 from by
          rw [freeAt_move 0.5 0 (by norm_num) (by norm_num)]
          norm_num]
        rw [freeAt_dist 0.5 0 (by norm_num)]
        norm_num [seedParticle, freeAt, PARTICLE_RADIUS]
